import Mathlib

/-!
Verification of the real-time scheduling and synthesis engine of the NAW
sequencer (`src/services/audioEngine.ts`), against its natural-language
specification.

Shallow embedding conventions:
* JS `number` values that carry musical time, tempo, gain or frequency are
  modelled as `ℚ` (all constants of the engine are exact decimals).
* Integer quantities (step indices, bar indices) are modelled as `ℤ`.
* JS `%` on integers is truncated remainder, i.e. `Int.tmod`; JS
  `Math.floor(a / b)` on integers is floor division, i.e. `Int.fdiv`.
* The Web Audio graph is modelled as data: each call of a synthesis routine
  (`playKick`, `playBass`, ...) produces one `ScheduledSound` record holding
  the routine kind, resolved frequency, computed duration, start time, the
  value of the per-event gain node created by `triggerEvent`, and the node
  that per-event gain node is connected to.
* The engine's `AudioContext` (`this.ctx`) is modelled as present and
  running; `this.ctx.currentTime` becomes an explicit `now : ℚ` argument.
  The `if (!this.ctx) return` guards of the source are therefore always in
  the non-returning branch and are omitted.
* The recurring `setTimeout` driving `scheduler()` is modelled by running
  the scheduler body (`schedulerLoop`, a fuel-indexed version of the
  source's `while` loop) at an explicit list of invocation timestamps.
-/

namespace NAW

/-- Stem categories, from `StemType` in `src/types.ts`. -/
inductive StemType where
  | DRUMS
  | BASS
  | VOCALS
  | OTHER
deriving DecidableEq, Repr

/-- The TS field `note : string | number` of `NoteEvent`. -/
inductive NoteValue where
  | str (s : String)
  | num (x : ℚ)
deriving DecidableEq, Repr

/-- `NoteEvent` from `src/types.ts`. -/
structure NoteEvent where
  step : ℤ
  note : NoteValue
  duration : ℚ
  velocity : ℚ
  isGhost : Bool := false
deriving DecidableEq, Repr

/-- `Clip` from `src/types.ts` (a "Region" in the spec's vocabulary). -/
structure Clip where
  id : String
  name : String
  startBar : ℤ
  lengthBars : ℤ
  type : StemType
  color : String
  events : List NoteEvent
  latentData : List ℚ
deriving DecidableEq, Repr

/-- `Track` from `src/types.ts`. -/
structure Track where
  id : String
  name : String
  type : StemType
  volume : ℚ
  muted : Bool
  solo : Bool
  clips : List Clip
deriving DecidableEq, Repr

/-- The `NOTE_TO_FREQ` table of `audioEngine.ts`, as an association list. -/
def NOTE_TO_FREQ : List (String × ℚ) :=
  [("C", 1635/100), ("C#", 1732/100), ("Db", 1732/100), ("D", 1835/100),
   ("D#", 1945/100), ("Eb", 1945/100), ("E", 2060/100),
   ("F", 2183/100), ("F#", 2312/100), ("Gb", 2312/100), ("G", 2450/100),
   ("G#", 2596/100), ("Ab", 2596/100), ("A", 2750/100),
   ("A#", 2914/100), ("Bb", 2914/100), ("B", 3087/100)]

/-- Value of a nonempty all-digit character list, as `parseInt` reads it. -/
def digitsVal (cs : List Char) : ℕ :=
  cs.foldl (fun a c => a * 10 + (c.toNat - 48)) 0

/-- Matches `\d+` (one or more ASCII digits), returning the numeric value. -/
def parseDigits (cs : List Char) : Option ℕ :=
  if cs ≠ [] ∧ cs.all (fun c => c.isDigit) then some (digitsVal cs) else none

/-- Matches `-?\d+` anchored to the whole character list. -/
def parseSignedInt (cs : List Char) : Option ℤ :=
  match cs with
  | '-' :: rest => (parseDigits rest).map (fun n => -(n : ℤ))
  | _ => (parseDigits cs).map (fun n => (n : ℤ))

/-- The regex match `note.match(/^([A-G][#b]?)(-?\d+)$/)` of `getFreq`:
returns the note-name capture and the octave capture (already `parseInt`ed),
or `none` when the string does not match. -/
def parsePitch (s : String) : Option (String × ℤ) :=
  match s.data with
  | [] => none
  | c :: rest =>
    if 'A' ≤ c ∧ c ≤ 'G' then
      match rest with
      | a :: rest2 =>
        if a = '#' ∨ a = 'b' then
          (parseSignedInt rest2).map (fun o => (String.mk [c, a], o))
        else
          (parseSignedInt rest).map (fun o => (String.mk [c], o))
      | [] => none
    else none

/-- `getFreq` from `audioEngine.ts` lines 10–25: numbers pass through, the
empty string and `"REST"` map to 0, a parse failure or unknown note name
falls back to 440, otherwise the base frequency is scaled by `2^octave`. -/
def getFreq (note : NoteValue) : ℚ :=
  match note with
  | .num x => x
  | .str s =>
    if s = "" ∨ s = "REST" then 0
    else
      match parsePitch s with
      | none => 440
      | some (name, octave) =>
        match NOTE_TO_FREQ.lookup name with
        | none => 440
        | some baseFreq => baseFreq * (2 : ℚ) ^ octave

/-- Node of the persistent mix-bus graph built by `init()`: the master gain,
the dynamics compressor, and the device destination. -/
inductive MixNode where
  | master
  | compressor
  | destination
deriving DecidableEq, Repr

/-- The persistent connections made by `init()` (lines 53–69):
`masterGain → compressor → ctx.destination`. -/
def initConnections : List (MixNode × MixNode) :=
  [(.master, .compressor), (.compressor, .destination)]

/-- `masterGain.gain.value = 0.6` set in `init()`. -/
def masterGainValue : ℚ := 3/5

/-- Which synthesis routine produced a scheduled sound. -/
inductive SoundKind where
  | kick
  | snare
  | hihat (isOpen : Bool)
  | bass
  | vocal
  | pad
deriving DecidableEq, Repr

/-- One call of a synthesis routine, as data: the routine kind, the
frequency given to it (0 for the drum routines, which take none), the
duration it computes for its envelope/stop scheduling, the scheduled start
time, the value stored in the per-event gain node created by
`triggerEvent`, and the mix-bus node that per-event gain node connects to. -/
structure ScheduledSound where
  kind : SoundKind
  freq : ℚ
  durSeconds : ℚ
  startTime : ℚ
  gainValue : ℚ
  gainDest : MixNode
deriving DecidableEq, Repr

/-- `playKick` (lines 190–205): fixed 0.5 s exponential decay. -/
def playKick (time : ℚ) (g : ℚ) (dest : MixNode) : ScheduledSound :=
  ⟨.kick, 0, 1/2, time, g, dest⟩

/-- `playSnare` (lines 207–244): noise burst with 0.2 s decay (plus a short
tone component, subsumed in the one routine-call record). -/
def playSnare (time : ℚ) (g : ℚ) (dest : MixNode) : ScheduledSound :=
  ⟨.snare, 0, 1/5, time, g, dest⟩

/-- `playHiHat` (lines 246–272): decay 0.3 s when open, 0.05 s when closed. -/
def playHiHat (time : ℚ) (isOpen : Bool) (g : ℚ) (dest : MixNode) : ScheduledSound :=
  ⟨.hihat isOpen, 0, if isOpen then 3/10 else 1/20, time, g, dest⟩

/-- Duration in seconds computed identically by `playBass`, `playVocalSynth`
and `playPad`: `durationSteps * 0.25 * (60 / bpm)`. -/
def stepsToSeconds (bpm : ℚ) (durationSteps : ℚ) : ℚ :=
  durationSteps * (1/4) * (60 / bpm)

/-- `playBass` (lines 274–301): sawtooth through a swept low-pass filter;
the oscillator runs from `time` to `time + dur`. -/
def playBass (bpm time freq durationSteps g : ℚ) (dest : MixNode) : ScheduledSound :=
  ⟨.bass, freq, stepsToSeconds bpm durationSteps, time, g, dest⟩

/-- `playVocalSynth` (lines 303–336): triangle wave with vibrato through a
band-pass filter, running from `time` to `time + dur`. -/
def playVocalSynth (bpm time freq durationSteps g : ℚ) (dest : MixNode) : ScheduledSound :=
  ⟨.vocal, freq, stepsToSeconds bpm durationSteps, time, g, dest⟩

/-- `playPad` (lines 338–363): detuned dual oscillators, stopping at
`time + dur + 0.5`. -/
def playPad (bpm time freq durationSteps g : ℚ) (dest : MixNode) : ScheduledSound :=
  ⟨.pad, freq, stepsToSeconds bpm durationSteps, time, g, dest⟩

/-- JS `String.prototype.toUpperCase()`, as used on the drum labels in
`triggerEvent`: ASCII upper-casing, character by character (the labels
involved are plain ASCII, where the two functions agree). -/
def jsToUpperCase (s : String) : String := ⟨s.data.map Char.toUpper⟩

/-- `triggerEvent` (lines 160–186): creates a fresh per-event gain node
whose value is `track.volume * event.velocity`, connects it to the master
gain, and dispatches on the track's stem type.  For `DRUMS` the note is
stringified and upper-cased and only the four known labels (`SNARE` sharing
a branch with `CLAP`) schedule anything; a numeric note stringifies to a
numeral and so matches no label.  Pitched stems resolve the frequency via
`getFreq` and always schedule exactly one routine call.  `bpm` is the
engine's `this.bpm` read by the pitched routines. -/
def triggerEvent (bpm : ℚ) (track : Track) (event : NoteEvent) (time : ℚ) :
    List ScheduledSound :=
  let g := track.volume * event.velocity
  match track.type with
  | .DRUMS =>
    match event.note with
    | .num _ => []
    | .str s =>
      let ty := jsToUpperCase s
      if ty = "KICK" then [playKick time g .master]
      else if ty = "SNARE" ∨ ty = "CLAP" then [playSnare time g .master]
      else if ty = "CHAT" then [playHiHat time false g .master]
      else if ty = "OHAT" then [playHiHat time true g .master]
      else []
  | .BASS => [playBass bpm time (getFreq event.note) event.duration g .master]
  | .VOCALS => [playVocalSynth bpm time (getFreq event.note) event.duration g .master]
  | .OTHER => [playPad bpm time (getFreq event.note) event.duration g .master]

/-- A dispatch decision of the Event Router: `triggerEvent` is to be called
for this track and event at this audio-clock time. -/
structure TriggerCall where
  track : Track
  event : NoteEvent
  time : ℚ
deriving DecidableEq, Repr

/-- `const bar = Math.floor(beatIndex / 16)` of `scheduleNote`. -/
def barOfStep (beatIndex : ℤ) : ℤ := Int.fdiv beatIndex 16

/-- The clip search of `scheduleNote` (line 133):
`track.clips.find(c => bar >= c.startBar && bar < c.startBar + c.lengthBars)`. -/
def findActiveClip (track : Track) (bar : ℤ) : Option Clip :=
  track.clips.find? (fun c => decide (c.startBar ≤ bar) && decide (bar < c.startBar + c.lengthBars))

/-- `playClipEvents` (lines 141–158): early-exits on an empty event list,
computes the loop-local step with JS `%` (truncated remainder), and fires
every event stored at that step. -/
def playClipEvents (track : Track) (clip : Clip) (time : ℚ) (globalBeatIndex : ℤ) :
    List TriggerCall :=
  if clip.events = [] then []
  else
    let clipStartStep := clip.startBar * 16
    let stepInClip := globalBeatIndex - clipStartStep
    let loopLengthSteps := clip.lengthBars * 16
    let currentLoopStep := Int.tmod stepInClip loopLengthSteps
    (clip.events.filter (fun e => e.step == currentLoopStep)).map
      (fun e => ⟨track, e, time⟩)

/-- The body of the `tracks.forEach` in `scheduleNote` (lines 126–138) for
one track: the mute check, then the solo check against the whole track
list, then clip resolution and event playback. -/
def trackCalls (tracks : List Track) (track : Track) (beatIndex : ℤ) (time : ℚ) :
    List TriggerCall :=
  if track.muted then []
  else if tracks.any (fun t => t.solo) && !track.solo then []
  else
    match findActiveClip track (barOfStep beatIndex) with
    | none => []
    | some clip => playClipEvents track clip time beatIndex

/-- `scheduleNote` (lines 123–139): every track contributes its calls. -/
def scheduleNote (tracks : List Track) (beatIndex : ℤ) (time : ℚ) : List TriggerCall :=
  tracks.flatMap (fun t => trackCalls tracks t beatIndex time)

/-- The mutable fields of the `AudioEngine` class (lines 27–44) that the
scheduling logic reads and writes. -/
structure Engine where
  isPlaying : Bool
  bpm : ℚ
  startTime : ℚ
  startBar : ℚ
  scheduleAheadTime : ℚ
  nextNoteTime : ℚ
  current16thNote : ℤ
  tracks : List Track
deriving DecidableEq, Repr

/-- Field initializers of the class: stopped, 120 bpm, 0.1 s lookahead
window, empty track list. -/
def Engine.initial : Engine :=
  { isPlaying := false, bpm := 120, startTime := 0, startBar := 0,
    scheduleAheadTime := 1/10, nextNoteTime := 0, current16thNote := 0,
    tracks := [] }

/-- `setTracks` (lines 71–73). -/
def setTracks (e : Engine) (tracks : List Track) : Engine :=
  { e with tracks := tracks }

/-- `setBpm` (lines 75–77): stores the argument as-is. -/
def setBpm (e : Engine) (bpm : ℚ) : Engine :=
  { e with bpm := bpm }

/-- The `secondsPerBar` local of `getCurrentBar` (line 82). -/
def secondsPerBar (bpm : ℚ) : ℚ := (60 / bpm) * 4

/-- `getCurrentBar` (lines 79–84), with `this.ctx.currentTime` passed as
`now`. -/
def getCurrentBar (e : Engine) (now : ℚ) : ℚ :=
  if !e.isPlaying then e.startBar
  else e.startBar + (now - e.startTime) / secondsPerBar e.bpm

/-- `start` (lines 86–99), with the device clock passed as `now`: a no-op
while already playing, otherwise records the epoch, floors the start bar
onto the 16th-note grid, and sets the first note time 50 ms ahead.  The
source then immediately invokes `scheduler()`; in this model the caller
runs the scheduler at `now` as the first invocation. -/
def start (e : Engine) (now : ℚ) (atBar : ℚ) : Engine :=
  if e.isPlaying then e
  else
    { e with
      isPlaying := true
      startBar := atBar
      startTime := now
      current16thNote := ⌊atBar * 16⌋
      nextNoteTime := now + 1/20 }

/-- `stop` (lines 101–104). -/
def stop (e : Engine) : Engine :=
  { e with isPlaying := false }

/-- `advanceNote` (lines 117–121): `nextNoteTime += 0.25 * (60 / bpm)` and
the step cursor increments. -/
def advanceNote (e : Engine) : Engine :=
  { e with
    nextNoteTime := e.nextNoteTime + (1/4) * (60 / e.bpm)
    current16thNote := e.current16thNote + 1 }

/-- The amount `advanceNote` adds to `nextNoteTime`: a 16th note,
`0.25 * secondsPerBeat`. -/
def noteInc (e : Engine) : ℚ := (1/4) * (60 / e.bpm)

/-- Guard of the `while` loop in `scheduler` (line 108). -/
def schedGuard (e : Engine) (now : ℚ) : Prop :=
  e.nextNoteTime < now + e.scheduleAheadTime

instance (e : Engine) (now : ℚ) : Decidable (schedGuard e now) := by
  unfold schedGuard; infer_instance

/-- The `while` loop of `scheduler` (lines 106–115) as a fuel-indexed
recursion: while the next note time is inside the lookahead window, collect
the `scheduleNote` dispatches for the current step and advance.  A run is a
faithful image of the source's loop when the returned state fails the
guard, i.e. the loop exited by its condition rather than by fuel
exhaustion (`schedulerLoop_fuel_stable` below shows such a run is
unchanged by giving more fuel). -/
def schedulerLoop : ℕ → Engine → ℚ → Engine × List TriggerCall
  | 0, e, _ => (e, [])
  | n + 1, e, now =>
    if schedGuard e now then
      let calls := scheduleNote e.tracks e.current16thNote e.nextNoteTime
      let r := schedulerLoop n (advanceNote e) now
      (r.1, calls ++ r.2)
    else (e, [])

/-- Repeated invocations of `scheduler()` at an explicit list of device
timestamps, modelling the recurring `setTimeout` callback; returns the
final engine state and all dispatched trigger calls in order. -/
def runSched (fuel : ℕ) : Engine → List ℚ → Engine × List TriggerCall
  | e, [] => (e, [])
  | e, now :: rest =>
    let r := schedulerLoop fuel e now
    let r2 := runSched fuel r.1 rest
    (r2.1, r.2 ++ r2.2)

/-! Concrete scenario data used by the testable properties of the spec. -/

/-- End-to-end scenario: percussive event at local step 0, duration 1,
velocity 1.0. -/
def c1Event0 : NoteEvent := ⟨0, .str "KICK", 1, 1, false⟩

/-- End-to-end scenario: percussive event at local step 16, duration 1,
velocity 1.0. -/
def c1Event16 : NoteEvent := ⟨16, .str "KICK", 1, 1, false⟩

/-- End-to-end scenario: one 2-bar region starting at bar 0. -/
def c1Clip : Clip := ⟨"c1", "loop", 0, 2, .DRUMS, "", [c1Event0, c1Event16], []⟩

/-- End-to-end scenario: one percussion track holding `c1Clip`. -/
def c1Track : Track := ⟨"t1", "Drums", .DRUMS, 1, false, false, [c1Clip]⟩

/-- End-to-end scenario: the engine right after `start(0)` at device time 0
with bpm 120 (the constructor default) and the one track loaded. -/
def c1Engine : Engine := start (setTracks Engine.initial [c1Track]) 0 0

/-- Evenly spaced timestamps `0, dt, 2·dt, …, (n-1)·dt`, in order. -/
def uniformTimes : ℕ → ℚ → List ℚ
  | 0, _ => []
  | n + 1, dt => uniformTimes n dt ++ [(n : ℚ) * dt]

/-- End-to-end scenario: scheduler invocation timestamps for 4.1 simulated
seconds of playback at the source's 25 ms `setTimeout` cadence:
0, 0.025, 0.050, …, 4.1. -/
def c1Times : List ℚ := uniformTimes 165 (1/40)

/-- Looping scenario: an event at local step 5 of a 2-bar region. -/
def c2Event : NoteEvent := ⟨5, .str "C2", 2, 3/4, false⟩

/-- Looping scenario: region with `start = 0`, `length = 2` bars. -/
def c2Clip : Clip := ⟨"c2", "bassloop", 0, 2, .BASS, "", [c2Event], []⟩

/-- Looping scenario: the track holding `c2Clip`. -/
def c2Track : Track := ⟨"t2", "Bass", .BASS, 1, false, false, [c2Clip]⟩

/-- Mute/solo scenario: track A is soloed and holds an event at step 0. -/
def c3TrackA : Track :=
  ⟨"A", "A", .DRUMS, 1, false, true,
    [⟨"ca", "ca", 0, 1, .DRUMS, "", [⟨0, .str "KICK", 1, 1, false⟩], []⟩]⟩

/-- Mute/solo scenario: track B is neither soloed nor muted and holds an
event at step 0. -/
def c3TrackB : Track :=
  ⟨"B", "B", .BASS, 1, false, false,
    [⟨"cb", "cb", 0, 1, .BASS, "", [⟨0, .str "C2", 1, 1, false⟩], []⟩]⟩

/-- Mute/solo scenario: track C is muted and holds an event at step 0. -/
def c3TrackC : Track :=
  ⟨"C", "C", .VOCALS, 1, true, false,
    [⟨"cc", "cc", 0, 1, .VOCALS, "", [⟨0, .str "A3", 1, 1, false⟩], []⟩]⟩

/-- Mute/solo scenario: the project's track list. -/
def c3Tracks : List Track := [c3TrackA, c3TrackB, c3TrackC]

/-- Gain scenario: a track with volume 0.5. -/
def c5Track : Track := ⟨"t5", "Bass", .BASS, 1/2, false, false, []⟩

/-- Gain scenario: an event with velocity 0.8. -/
def c5Event : NoteEvent := ⟨0, .str "C2", 4, 4/5, false⟩

/-- Gain scenario: a track with full volume 1. -/
def c5xTrack : Track := ⟨"t5x", "Bass", .BASS, 1, false, false, []⟩

/-- Gain scenario: an event with out-of-range velocity 1.5. -/
def c5xEvent : NoteEvent := ⟨0, .str "C2", 4, 3/2, false⟩

/-- Malformed-event scenario: a percussion track. -/
def c6DrumTrack : Track := ⟨"t6", "Drums", .DRUMS, 1, false, false, []⟩

/-- Malformed-event scenario: an event with unresolvable pitch `"???"`. -/
def c6BadEvent : NoteEvent := ⟨0, .str "???", 1, 1, false⟩

/-- Malformed-event scenario: a pitched (bass) track. -/
def c6BassTrack : Track := ⟨"t6b", "Bass", .BASS, 1, false, false, []⟩

/-- Malformed-event scenario: an event with pitch `"???"` and duration 0. -/
def c6ZeroEvent : NoteEvent := ⟨0, .str "???", 0, 1, false⟩

/-- Mix-bus scenario: a bass track at volume 0.5. -/
def c7Track : Track := ⟨"t7", "Bass", .BASS, 1/2, false, false, []⟩

/-- Mix-bus scenario: the same track after the host edits its volume to
0.25 mid-playback (pushed via `setTracks`). -/
def c7TrackAfter : Track := ⟨"t7", "Bass", .BASS, 1/4, false, false, []⟩

/-- Mix-bus scenario: a long held note (640 steps = 80 s at 120 bpm), still
sounding when the volume edit happens. -/
def c7Event : NoteEvent := ⟨0, .str "C2", 640, 1, false⟩

/-- Region-boundary scenario: region with `start = 2`, `length = 1` bars,
holding an event at local step 0. -/
def c9Clip : Clip := ⟨"c9", "late", 2, 1, .OTHER, "", [⟨0, .str "C4", 1, 1, false⟩], []⟩

/-- Region-boundary scenario: the track holding `c9Clip`. -/
def c9Track : Track := ⟨"t9", "Other", .OTHER, 1, false, false, [c9Clip]⟩

/-- Rest scenario: a bass track. -/
def c10Track : Track := ⟨"t10", "Bass", .BASS, 1, false, false, []⟩

/-- Rest scenario: an event whose note is the string `"REST"`. -/
def c10Event : NoteEvent := ⟨0, .str "REST", 4, 1, false⟩

/-! Helper lemmas about the lookahead scheduler loop.  The central fact is
`runSched_collapse`: invocations at any timestamps below a final one
dispatch, in total, exactly what a single invocation at the final
timestamp dispatches — the spec's remark that "the exact cadence does not
affect correctness". -/

theorem advanceNote_nextNoteTime (e : Engine) :
    (advanceNote e).nextNoteTime = e.nextNoteTime + noteInc e := rfl

theorem noteInc_advanceNote (e : Engine) : noteInc (advanceNote e) = noteInc e := rfl

theorem schedulerLoop_of_not_guard (f : ℕ) (e : Engine) (now : ℚ)
    (h : ¬ schedGuard e now) : schedulerLoop f e now = (e, []) := by
  cases f <;> simp [schedulerLoop, h]

theorem schedulerLoop_bpm (f : ℕ) (e : Engine) (now : ℚ) :
    (schedulerLoop f e now).1.bpm = e.bpm := by
  induction f generalizing e with
  | zero => rfl
  | succ f ih =>
    by_cases h : schedGuard e now
    · simpa [schedulerLoop, h] using ih (advanceNote e)
    · simp [schedulerLoop, h]

theorem schedulerLoop_ahead (f : ℕ) (e : Engine) (now : ℚ) :
    (schedulerLoop f e now).1.scheduleAheadTime = e.scheduleAheadTime := by
  induction f generalizing e with
  | zero => rfl
  | succ f ih =>
    by_cases h : schedGuard e now
    · simpa [schedulerLoop, h] using ih (advanceNote e)
    · simp [schedulerLoop, h]

theorem schedulerLoop_nextNoteTime_le (f : ℕ) (e : Engine) (now : ℚ)
    (hinc : 0 ≤ noteInc e) :
    e.nextNoteTime ≤ (schedulerLoop f e now).1.nextNoteTime := by
  induction f generalizing e with
  | zero => simp [schedulerLoop]
  | succ f ih =>
    by_cases h : schedGuard e now
    · have h1 := ih (advanceNote e) hinc
      rw [advanceNote_nextNoteTime] at h1
      simp only [schedulerLoop, h, if_pos]
      linarith
    · simp [schedulerLoop, h]

theorem schedulerLoop_complete (f : ℕ) (e : Engine) (now : ℚ)
    (hinc : 0 ≤ noteInc e)
    (hf : now + e.scheduleAheadTime ≤ e.nextNoteTime + f * noteInc e) :
    ¬ schedGuard (schedulerLoop f e now).1 now := by
  induction f generalizing e with
  | zero =>
    simp only [Nat.cast_zero, zero_mul, add_zero] at hf
    simp only [schedulerLoop, schedGuard, not_lt]
    linarith
  | succ f ih =>
    by_cases h : schedGuard e now
    · have hf' : now + (advanceNote e).scheduleAheadTime ≤
          (advanceNote e).nextNoteTime + f * noteInc (advanceNote e) := by
        rw [advanceNote_nextNoteTime, noteInc_advanceNote]
        show now + e.scheduleAheadTime ≤ _
        push_cast at hf
        linarith
      have := ih (advanceNote e) hinc hf'
      simpa [schedulerLoop, h] using this
    · simpa [schedulerLoop_of_not_guard _ _ _ h] using h

theorem schedulerLoop_fuel_stable (f g : ℕ) (e : Engine) (now : ℚ) (hfg : f ≤ g)
    (h : ¬ schedGuard (schedulerLoop f e now).1 now) :
    schedulerLoop g e now = schedulerLoop f e now := by
  induction f generalizing e g with
  | zero =>
    have h0 : ¬ schedGuard e now := by simpa [schedulerLoop] using h
    rw [schedulerLoop_of_not_guard g e now h0, schedulerLoop_of_not_guard 0 e now h0]
  | succ f ih =>
    obtain ⟨g2, rfl⟩ : ∃ g2, g = g2 + 1 := ⟨g - 1, by omega⟩
    by_cases hg : schedGuard e now
    · have h2 : ¬ schedGuard (schedulerLoop f (advanceNote e) now).1 now := by
        simpa [schedulerLoop, hg] using h
      simp only [schedulerLoop, hg, if_pos]
      rw [ih g2 (advanceNote e) (by omega) h2]
    · rw [schedulerLoop_of_not_guard _ _ _ hg, schedulerLoop_of_not_guard _ _ _ hg]

theorem schedulerLoop_comp (f g : ℕ) (e : Engine) (t1 t2 : ℚ) (h12 : t1 ≤ t2)
    (hc1 : ¬ schedGuard (schedulerLoop f e t1).1 t1)
    (hc2 : ¬ schedGuard (schedulerLoop g (schedulerLoop f e t1).1 t2).1 t2) :
    schedulerLoop (f + g) e t2 =
      ((schedulerLoop g (schedulerLoop f e t1).1 t2).1,
        (schedulerLoop f e t1).2 ++ (schedulerLoop g (schedulerLoop f e t1).1 t2).2) := by
  induction f generalizing e with
  | zero => simp [schedulerLoop]
  | succ f ih =>
    by_cases h : schedGuard e t1
    · have h2 : schedGuard e t2 := by
        unfold schedGuard at h ⊢
        linarith
      have hc1' : ¬ schedGuard (schedulerLoop f (advanceNote e) t1).1 t1 := by
        simpa [schedulerLoop, h] using hc1
      have hc2' :
          ¬ schedGuard
            (schedulerLoop g (schedulerLoop f (advanceNote e) t1).1 t2).1 t2 := by
        simpa [schedulerLoop, h] using hc2
      have hih := ih (advanceNote e) hc1' hc2'
      rw [Nat.succ_add]
      simp only [schedulerLoop, h, h2, if_pos]
      rw [hih]
      simp [List.append_assoc]
    · rw [schedulerLoop_of_not_guard (f + 1) e t1 h] at hc2 ⊢
      have hg : ¬ schedGuard (schedulerLoop g e t2).1 t2 := hc2
      rw [schedulerLoop_fuel_stable g (f + 1 + g) e t2 (by omega) hg]
      simp [schedulerLoop_of_not_guard (f + 1) e t1 h]

theorem runSched_collapse (F : ℕ) (e : Engine) (ts : List ℚ) (T : ℚ)
    (hle : ∀ t ∈ ts, t ≤ T) (hinc : 0 ≤ noteInc e)
    (hF : T + e.scheduleAheadTime ≤ e.nextNoteTime + F * noteInc e) :
    runSched F e (ts ++ [T]) = schedulerLoop F e T := by
  induction ts generalizing e with
  | nil => simp [runSched]
  | cons t ts ih =>
    have ht : t ≤ T := hle t (by simp)
    have hc1 : ¬ schedGuard (schedulerLoop F e t).1 t :=
      schedulerLoop_complete F e t hinc (by linarith)
    have hbpm : (schedulerLoop F e t).1.bpm = e.bpm := schedulerLoop_bpm F e t
    have hincr : noteInc (schedulerLoop F e t).1 = noteInc e := by
      unfold noteInc
      rw [hbpm]
    have haheadr : (schedulerLoop F e t).1.scheduleAheadTime = e.scheduleAheadTime :=
      schedulerLoop_ahead F e t
    have hmono : e.nextNoteTime ≤ (schedulerLoop F e t).1.nextNoteTime :=
      schedulerLoop_nextNoteTime_le F e t hinc
    have hF2 : T + (schedulerLoop F e t).1.scheduleAheadTime ≤
        (schedulerLoop F e t).1.nextNoteTime + F * noteInc (schedulerLoop F e t).1 := by
      rw [hincr, haheadr]
      linarith
    have hih := ih (schedulerLoop F e t).1 (fun u hu => hle u (by simp [hu]))
      (by rw [hincr]; exact hinc) hF2
    have hc2 : ¬ schedGuard (schedulerLoop F (schedulerLoop F e t).1 T).1 T :=
      schedulerLoop_complete F (schedulerLoop F e t).1 T (by rw [hincr]; exact hinc) hF2
    have hcomp := schedulerLoop_comp F F e t T ht hc1 hc2
    have hstab : schedulerLoop (F + F) e T = schedulerLoop F e T :=
      schedulerLoop_fuel_stable F (F + F) e T (by omega)
        (schedulerLoop_complete F e T hinc hF)
    show ((runSched F (schedulerLoop F e t).1 (ts ++ [T])).1,
        (schedulerLoop F e t).2 ++ (runSched F (schedulerLoop F e t).1 (ts ++ [T])).2) =
      schedulerLoop F e T
    rw [hih, ← hcomp, hstab]

theorem mem_uniformTimes (n : ℕ) (dt t : ℚ) (ht : t ∈ uniformTimes n dt) :
    ∃ i : ℕ, i < n ∧ t = (i : ℚ) * dt := by
  induction n with
  | zero => simp [uniformTimes] at ht
  | succ n ih =>
    simp only [uniformTimes, List.mem_append, List.mem_singleton] at ht
    rcases ht with h | h
    · obtain ⟨i, hi, rfl⟩ := ih h
      exact ⟨i, by omega, rfl⟩
    · exact ⟨n, by omega, h⟩

theorem c1_times_split : c1Times = uniformTimes 164 (1/40) ++ [41/10] := by
  show uniformTimes (164 + 1) (1/40) = _
  rw [uniformTimes]
  norm_num

theorem c1_collapse : runSched 40 c1Engine c1Times = schedulerLoop 40 c1Engine (41/10) := by
  rw [c1_times_split]
  apply runSched_collapse
  · intro t ht
    obtain ⟨i, hi, rfl⟩ := mem_uniformTimes 164 (1/40) t ht
    have hle : (i : ℚ) ≤ 163 := by exact_mod_cast Nat.lt_succ_iff.mp hi
    linarith
  · norm_num [noteInc, c1Engine, start, setTracks, Engine.initial]
  · norm_num [noteInc, c1Engine, start, setTracks, Engine.initial]

set_option maxRecDepth 40000 in
set_option maxHeartbeats 3000000 in
theorem c1_eval :
    (schedulerLoop 40 c1Engine (41/10)).2 =
      [⟨c1Track, c1Event0, 1/20⟩, ⟨c1Track, c1Event16, 41/20⟩] ∧
    ¬ schedGuard (schedulerLoop 40 c1Engine (41/10)).1 (41/10) := by
  constructor <;>
    norm_num +decide [schedulerLoop, schedGuard, advanceNote, scheduleNote, trackCalls,
      findActiveClip, playClipEvents, barOfStep, c1Engine, c1Track, c1Clip, c1Event0,
      c1Event16, Engine.initial, start, setTracks, List.find?]

/-- C1, counterexample: in the end-to-end scenario (bpm 120, one track with
one 2-bar region at bar 0 holding percussive events at local steps 0 and
16, playback started at bar 0, scheduler run for 4.1 simulated seconds at
the 25 ms cadence), the number of dispatched trigger calls is 2 — not the
4 the claim asserts.  The region covers only bars 0 and 1, so global steps
32 and 48 have no active region, and at 120 bpm a bar lasts 2 s, so step
16 sounds 2 s (not 1 s) after the first note time. -/
theorem endToEnd_four_triggers_cx :
    (runSched 40 c1Engine c1Times).2.length = 2 ∧
    (runSched 40 c1Engine c1Times).2.length ≠ 4 := by
  rw [c1_collapse, c1_eval.1]
  norm_num

/-- C1, amended: the end-to-end scenario dispatches exactly 2 trigger
calls, for the events at global steps 0 and 16 of the one track, with
sounding times 0.05 s and 2.05 s (`start` sets the first note time 50 ms
after the start timestamp); moreover the final engine state fails the
while-loop guard at the last invocation, certifying the loop exited by its
condition and more fuel would dispatch nothing further at that horizon. -/
theorem endToEnd_run_dispatches :
    (runSched 40 c1Engine c1Times).2 =
      [⟨c1Track, c1Event0, 1/20⟩, ⟨c1Track, c1Event16, 41/20⟩] ∧
    ¬ schedGuard (runSched 40 c1Engine c1Times).1 (41/10) := by
  rw [c1_collapse]
  exact c1_eval

/-- C2, counterexample: for the region with start 0 and length 2 bars
holding an Event at local step 5, global steps 37 and 69 fall on bars 2
and 4, which the region does not cover, so the program's resolver finds no
active clip there and triggers nothing — the Event is not reported as
triggered at steps 37 and 69, only at step 5.  The claimed seamless
wraparound past the region's own extent does not happen. -/
theorem clipResolver_wrap_cx :
    (scheduleNote [c2Track] 5 0).map (fun c => c.event.step) = [5] ∧
    scheduleNote [c2Track] 37 0 = [] ∧
    scheduleNote [c2Track] 69 0 = [] ∧
    (findActiveClip c2Track (barOfStep 37)).isSome = false ∧
    (findActiveClip c2Track (barOfStep 69)).isSome = false := by
  refine ⟨by decide, by decide, by decide, by decide, by decide⟩

/-- C2, amended: whenever a region covers the bar of a global step, the
resolved local step is `(globalStep - start·16) mod (length·16)`
(mathematical mod, to which the source's JS `%` agrees here because the
dividend is non-negative), and `playClipEvents` triggers exactly the
events stored at that local step.  But the resolver only reaches a region
while `region.start ≤ bar < region.start + region.length`, so for the
2-bar region at bar 0 with an Event at local step 5 only global step 5
reports the Event; steps 37 and 69 lie on uncovered bars and dispatch
nothing — within the covered span the offset never exceeds one loop
period, so the modulo never actually wraps through the scheduler. -/
theorem clipResolver_loop_law (track : Track) (clip : Clip) (time : ℚ) (g : ℤ)
    (hcov : clip.startBar ≤ barOfStep g ∧ barOfStep g < clip.startBar + clip.lengthBars) :
    (playClipEvents track clip time g =
      (clip.events.filter
        (fun e => e.step == (g - clip.startBar * 16) % (clip.lengthBars * 16))).map
        (fun e => ⟨track, e, time⟩)) ∧
    (scheduleNote [c2Track] 5 0).map (fun c => c.event.step) = [5] ∧
    scheduleNote [c2Track] 37 0 = [] ∧
    scheduleNote [c2Track] 69 0 = [] := by
  obtain ⟨h1, h2⟩ := hcov
  have hlen : 0 < clip.lengthBars := by omega
  have h1e : clip.startBar ≤ g / 16 := by
    rwa [barOfStep, Int.fdiv_eq_ediv g (by norm_num)] at h1
  have hmul : clip.startBar * 16 ≤ g / 16 * 16 :=
    mul_le_mul_of_nonneg_right h1e (by norm_num)
  have hle2 : g / 16 * 16 ≤ g := Int.ediv_mul_le g (by norm_num)
  have hnn : 0 ≤ g - clip.startBar * 16 := by omega
  have hmod : Int.tmod (g - clip.startBar * 16) (clip.lengthBars * 16) =
      (g - clip.startBar * 16) % (clip.lengthBars * 16) :=
    Int.tmod_eq_emod hnn (by positivity)
  refine ⟨?_, by decide, by decide, by decide⟩
  by_cases he : clip.events = []
  · simp [playClipEvents, he]
  · simp only [playClipEvents, he, if_neg, ite_false]
    rw [hmod]

/-- C3: a muted track dispatches nothing, and a non-soloed track dispatches
nothing while any track in the project is soloed; in the concrete A/B/C
scenario (A soloed, B plain, C muted, each holding an event at step 0)
exactly one call is dispatched and it belongs to track A. -/
theorem router_mute_solo_policy (tracks : List Track) (track : Track) (g : ℤ) (time : ℚ)
    (h : track.muted = true ∨
      (tracks.any (fun t => t.solo) = true ∧ track.solo = false)) :
    trackCalls tracks track g time = [] ∧
    (scheduleNote c3Tracks 0 0).map (fun c => c.track.id) = ["A"] := by
  constructor
  · rcases h with hm | ⟨hs, hns⟩
    · simp [trackCalls, hm]
    · by_cases hm : track.muted <;> simp [trackCalls, hm, hs, hns]
  · decide

/-- C3 witness: in the A/B/C project the muted track C dispatches nothing,
and the only dispatched call belongs to the soloed track A. -/
theorem router_mute_solo_policy_witness :
    trackCalls c3Tracks c3TrackC 0 0 = [] ∧
    (scheduleNote c3Tracks 0 0).map (fun c => c.track.id) = ["A"] :=
  router_mute_solo_policy c3Tracks c3TrackC 0 0 (Or.inl rfl)

/-- C9: the clip resolver returns the first region in list order whose span
contains the queried bar, and a track where no region covers the bar of
the queried step contributes no trigger calls at that step. -/
theorem clip_selection_first_and_none (track : Track) (bar : ℤ)
    (pre post : List Clip) (clip : Clip)
    (hsplit : track.clips = pre ++ clip :: post)
    (hcov : clip.startBar ≤ bar ∧ bar < clip.startBar + clip.lengthBars)
    (hpre : ∀ c ∈ pre, ¬ (c.startBar ≤ bar ∧ bar < c.startBar + c.lengthBars)) :
    findActiveClip track bar = some clip ∧
    ∀ (tracks : List Track) (tr : Track) (g : ℤ) (time : ℚ),
      findActiveClip tr (barOfStep g) = none → trackCalls tracks tr g time = [] := by
  constructor
  · unfold findActiveClip
    rw [hsplit, List.find?_append]
    have hnone :
        pre.find? (fun c => decide (c.startBar ≤ bar) &&
          decide (bar < c.startBar + c.lengthBars)) = none := by
      rw [List.find?_eq_none]
      intro c hc
      simp only [Bool.and_eq_true, decide_eq_true_eq, not_and]
      intro hx hy
      exact hpre c hc ⟨hx, hy⟩
    rw [hnone]
    rw [List.find?_cons_of_pos _ (by simp [hcov.1, hcov.2])]
    rfl
  · intro tracks tr g time hnone
    by_cases hm : tr.muted
    · simp [trackCalls, hm]
    · by_cases hs : tracks.any (fun t => t.solo) && !tr.solo <;>
        simp [trackCalls, hm, hs, hnone]

/-- C9 witness: the region with start 2 and length 1 is not active at bars
0, 1 and 3 (so those steps dispatch nothing), is selected at bar 2, and
global step 32 resolves to local step 0 of that region. -/
theorem clip_selection_first_and_none_witness :
    findActiveClip c9Track 2 = some c9Clip ∧
    trackCalls [c9Track] c9Track 0 0 = [] ∧
    (findActiveClip c9Track 0).isSome = false ∧
    (findActiveClip c9Track 1).isSome = false ∧
    (findActiveClip c9Track 3).isSome = false ∧
    (playClipEvents c9Track c9Clip 0 32).map (fun c => c.event.step) = [0] := by
  have h := clip_selection_first_and_none c9Track 2 [] [] c9Clip rfl
    (by constructor <;> decide) (by simp)
  exact ⟨h.1, h.2 [c9Track] c9Track 0 0 (by decide), by decide, by decide, by decide,
    by decide⟩

/-- C2 witness: the amended law instantiated at global step 5 of the
concrete 2-bar region (which covers bar 0), together with its concrete
no-wraparound conjuncts. -/
theorem clipResolver_loop_law_witness :
    (playClipEvents c2Track c2Clip 0 5 =
      (c2Clip.events.filter
        (fun e => e.step == ((5 : ℤ) - c2Clip.startBar * 16) % (c2Clip.lengthBars * 16))).map
        (fun e => ⟨c2Track, e, 0⟩)) ∧
    (scheduleNote [c2Track] 5 0).map (fun c => c.event.step) = [5] ∧
    scheduleNote [c2Track] 37 0 = [] ∧
    scheduleNote [c2Track] 69 0 = [] :=
  clipResolver_loop_law c2Track c2Clip 0 5 (by constructor <;> decide)

/-- Every sound produced by `triggerEvent` carries the per-event gain
`track.volume * event.velocity`, its per-event gain node connects to the
master gain, and it is scheduled at the dispatch time. -/
theorem triggerEvent_sound (bpm : ℚ) (track : Track) (event : NoteEvent) (time : ℚ)
    (s : ScheduledSound) (hs : s ∈ triggerEvent bpm track event time) :
    s.gainValue = track.volume * event.velocity ∧ s.gainDest = MixNode.master ∧
    s.startTime = time := by
  cases htype : track.type with
  | DRUMS =>
    cases hnote : event.note with
    | num x => simp [triggerEvent, htype, hnote] at hs
    | str lbl =>
      simp only [triggerEvent, htype, hnote] at hs
      repeat' split at hs
      all_goals
        first
          | exact absurd hs (List.not_mem_nil s)
          | (rw [List.mem_singleton] at hs
             subst hs
             exact ⟨rfl, rfl, rfl⟩)
  | BASS =>
    simp only [triggerEvent, htype, List.mem_singleton] at hs
    subst hs
    exact ⟨rfl, rfl, rfl⟩
  | VOCALS =>
    simp only [triggerEvent, htype, List.mem_singleton] at hs
    subst hs
    exact ⟨rfl, rfl, rfl⟩
  | OTHER =>
    simp only [triggerEvent, htype, List.mem_singleton] at hs
    subst hs
    exact ⟨rfl, rfl, rfl⟩

/-- For a bass track, `triggerEvent` is exactly one `playBass` call. -/
theorem triggerEvent_bass (bpm : ℚ) (track : Track) (event : NoteEvent) (time : ℚ)
    (h : track.type = StemType.BASS) :
    triggerEvent bpm track event time =
      [playBass bpm time (getFreq event.note) event.duration
        (track.volume * event.velocity) .master] := by
  simp [triggerEvent, h]

/-- C4 counterexample: `setBpm` performs no clamping — after
`setBpm(-120)` the stored tempo is −120, not a positive minimum, and the
unclamped value reaches the scheduling math: `advanceNote` then moves
`nextNoteTime` backwards by 0.125 s. -/
theorem setBpm_clamp_cx :
    (setBpm Engine.initial (-120)).bpm = -120 ∧
    ¬ (0 < (setBpm Engine.initial (-120)).bpm) ∧
    (advanceNote (setBpm Engine.initial (-120))).nextNoteTime =
      Engine.initial.nextNoteTime - 1/8 := by
  norm_num [setBpm, advanceNote, noteInc, Engine.initial]

/-- With a negative tempo the while-loop guard of `scheduler`, once true,
stays true after every iteration: each `advanceNote` moves `nextNoteTime`
further backwards, so no amount of fuel makes the loop exit. -/
theorem schedulerLoop_guard_neg (f : ℕ) (e : Engine) (now : ℚ)
    (hbpm : e.bpm < 0) (h : schedGuard e now) :
    schedGuard (schedulerLoop f e now).1 now := by
  induction f generalizing e with
  | zero => simpa [schedulerLoop] using h
  | succ f ih =>
    have hinc : noteInc e < 0 := by
      unfold noteInc
      have h60 : (60 : ℚ) / e.bpm < 0 := div_neg_of_pos_of_neg (by norm_num) hbpm
      linarith
    have hg2 : schedGuard (advanceNote e) now := by
      unfold schedGuard at h ⊢
      rw [advanceNote_nextNoteTime]
      show e.nextNoteTime + noteInc e < now + e.scheduleAheadTime
      linarith
    have := ih (advanceNote e) hbpm hg2
    simpa [schedulerLoop, h] using this

/-- C4 amended: `setBpm` stores the given tempo unchanged — there is no
clamping — and for a negative tempo a single scheduler invocation whose
while-loop guard is true never makes the guard false again, however many
iterations it runs: the loop cannot terminate, i.e. a bad tempo edit can
freeze the scheduler. -/
theorem setBpm_unclamped_freeze (e : Engine) (b now : ℚ) (f : ℕ)
    (hb : b < 0) (hg : schedGuard (setBpm e b) now) :
    (setBpm e b).bpm = b ∧
    schedGuard (schedulerLoop f (setBpm e b) now).1 now :=
  ⟨rfl, schedulerLoop_guard_neg f (setBpm e b) now hb hg⟩

/-- C4 amended, witness at tempo −120, invocation time 0, 1000 iterations. -/
theorem setBpm_unclamped_freeze_witness :
    (setBpm Engine.initial (-120)).bpm = -120 ∧
    schedGuard (schedulerLoop 1000 (setBpm Engine.initial (-120)) 0).1 0 :=
  setBpm_unclamped_freeze Engine.initial (-120) 0 1000 (by norm_num)
    (by norm_num [schedGuard, setBpm, Engine.initial])

/-- C5 counterexample: gains are not clamped — with volume 1 and velocity
1.5 the dispatched per-event gain is 1.5, outside [0, 1] (the claimed
clamping would have produced 1.0). -/
theorem gain_clamp_cx :
    (triggerEvent 120 c5xTrack c5xEvent 0).map (fun s => s.gainValue) = [3/2] ∧
    ¬ ((3 : ℚ)/2 ≤ 1) := by
  constructor
  · rw [triggerEvent_bass 120 c5xTrack c5xEvent 0 rfl]
    norm_num [c5xTrack, c5xEvent, playBass]
  · norm_num

/-- C5 amended: the per-event gain of every dispatched sound is exactly
`track.volume * event.velocity`, with neither factor clamped to [0, 1]:
in-range inputs such as volume 0.5 and velocity 0.8 give 0.4, but
out-of-range inputs pass through unchanged. -/
theorem gain_product_law (bpm : ℚ) (track : Track) (event : NoteEvent) (time : ℚ)
    (s : ScheduledSound) (hs : s ∈ triggerEvent bpm track event time) :
    s.gainValue = track.volume * event.velocity :=
  (triggerEvent_sound bpm track event time s hs).1

/-- C5 amended, witness: volume 0.5 and velocity 0.8 dispatch gain 0.4. -/
theorem gain_product_law_witness :
    (playBass 120 0 (getFreq c5Event.note) c5Event.duration
      (c5Track.volume * c5Event.velocity) .master).gainValue =
      c5Track.volume * c5Event.velocity ∧
    c5Track.volume * c5Event.velocity = 2/5 := by
  constructor
  · exact gain_product_law 120 c5Track c5Event 0 _
      (by rw [triggerEvent_bass 120 c5Track c5Event 0 rfl]; exact List.mem_singleton.mpr rfl)
  · norm_num [c5Track, c5Event]

/-- C6 counterexample: on a percussion track an event whose label `"???"`
matches no known drum name schedules no sound at all — not the "exactly
one sound with a default frequency" the claim asserts. -/
theorem malformed_drum_label_cx :
    triggerEvent 120 c6DrumTrack c6BadEvent 0 = [] ∧
    (triggerEvent 120 c6DrumTrack c6BadEvent 0).length ≠ 1 := by
  constructor <;> decide

/-- C6 amended: dispatch is total (never throws); on the pitched stems a
malformed event still schedules exactly one sound — an unresolvable pitch
string such as `"???"` resolves to the fixed default 440 Hz, and duration
0 yields a scheduled sound of exactly 0 seconds (no positive minimum is
imposed) — while on the percussive stem an unrecognized label schedules
no sound at all: the event is dropped, not defaulted. -/
theorem malformed_event_resilience (bpm time : ℚ) (track : Track) (event : NoteEvent)
    (hnd : track.type ≠ StemType.DRUMS) :
    (triggerEvent bpm track event time).length = 1 ∧
    (∀ s ∈ triggerEvent bpm track event time,
      s.freq = getFreq event.note ∧ s.durSeconds = stepsToSeconds bpm event.duration) ∧
    getFreq (.str "???") = 440 ∧
    stepsToSeconds bpm 0 = 0 ∧
    (∀ (tr : Track) (ev : NoteEvent) (lbl : String), tr.type = StemType.DRUMS →
      ev.note = .str lbl →
      jsToUpperCase lbl ∉ (["KICK", "SNARE", "CLAP", "CHAT", "OHAT"] : List String) →
      triggerEvent bpm tr ev time = []) := by
  refine ⟨?_, ?_, by decide, by norm_num [stepsToSeconds], ?_⟩
  · cases htype : track.type
    · exact absurd htype hnd
    · simp [triggerEvent, htype]
    · simp [triggerEvent, htype]
    · simp [triggerEvent, htype]
  · intro s hs
    cases htype : track.type
    · exact absurd htype hnd
    all_goals
      · simp only [triggerEvent, htype, List.mem_singleton] at hs
        subst hs
        exact ⟨rfl, rfl⟩
  · intro tr ev lbl htr hne hnot
    simp only [List.mem_cons, List.not_mem_nil, or_false, not_or] at hnot
    obtain ⟨h1, h2, h3, h4, h5⟩ := hnot
    simp [triggerEvent, htr, hne, h1, h2, h3, h4, h5]

/-- C6 amended, witness: the pitched `"???"`-with-duration-0 event
schedules exactly one sound, `"???"` resolves to 440, duration 0 maps to
0 seconds, and the percussive `"???"` event schedules nothing. -/
theorem malformed_event_resilience_witness :
    (triggerEvent 120 c6BassTrack c6ZeroEvent 0).length = 1 ∧
    getFreq (.str "???") = 440 ∧
    stepsToSeconds 120 0 = 0 ∧
    triggerEvent 120 c6DrumTrack c6BadEvent 0 = [] := by
  have h := malformed_event_resilience 120 0 c6BassTrack c6ZeroEvent (by decide)
  exact ⟨h.1, h.2.2.1, h.2.2.2.1,
    h.2.2.2.2 c6DrumTrack c6BadEvent "???" rfl rfl (by decide)⟩

/-- C7 counterexample: there is no persistent per-track gain stage whose
value a mid-event volume edit would update — each sound's gain is the
number captured at trigger time.  A long bass note triggered at volume 0.5
(sounding until t = 80 s) keeps gain 0.5 even though the same track,
re-pushed with volume 0.25, dispatches later sounds at gain 0.25: the edit
does not affect the currently-sounding sound, refuting "affects all
currently-sounding and future sounds uniformly". -/
theorem per_track_gain_stage_cx :
    (triggerEvent 120 c7Track c7Event 0).map (fun s => s.gainValue) = [1/2] ∧
    (triggerEvent 120 c7TrackAfter c7Event 10).map (fun s => s.gainValue) = [1/4] ∧
    ((1 : ℚ)/2 ≠ 1/4) ∧
    (triggerEvent 120 c7Track c7Event 0).map (fun s => s.startTime + s.durSeconds) = [80] ∧
    ((10 : ℚ) < 80) := by
  refine ⟨?_, ?_, by norm_num, ?_, by norm_num⟩ <;>
  · rw [triggerEvent_bass _ _ _ _ rfl]
    norm_num [c7Track, c7TrackAfter, c7Event, playBass, stepsToSeconds]

/-- C7 amended: every per-event gain stage created by `triggerEvent` is set
once to `track.volume * event.velocity` and connects directly to the
single shared master gain stage; the persistent graph is master gain →
compressor → device output.  There is no per-track persistent gain stage,
so a volume edit reaches only sounds triggered after the host re-pushes
the track list. -/
theorem mix_chain_per_event_gain (bpm : ℚ) (track : Track) (event : NoteEvent)
    (time : ℚ) (s : ScheduledSound) (hs : s ∈ triggerEvent bpm track event time) :
    s.gainDest = MixNode.master ∧
    s.gainValue = track.volume * event.velocity ∧
    initConnections =
      [(MixNode.master, MixNode.compressor), (MixNode.compressor, MixNode.destination)] := by
  obtain ⟨hg, hd, _⟩ := triggerEvent_sound bpm track event time s hs
  exact ⟨hd, hg, rfl⟩

/-- C7 amended, witness at the long bass note of the mix-bus scenario. -/
theorem mix_chain_per_event_gain_witness :
    (playBass 120 0 (getFreq c7Event.note) c7Event.duration
      (c7Track.volume * c7Event.velocity) .master).gainDest = MixNode.master ∧
    (playBass 120 0 (getFreq c7Event.note) c7Event.duration
      (c7Track.volume * c7Event.velocity) .master).gainValue =
      c7Track.volume * c7Event.velocity ∧
    initConnections =
      [(MixNode.master, MixNode.compressor), (MixNode.compressor, MixNode.destination)] :=
  mix_chain_per_event_gain 120 c7Track c7Event 0 _
    (by rw [triggerEvent_bass 120 c7Track c7Event 0 rfl]; exact List.mem_singleton.mpr rfl)

/-- C8: `secondsPerBar` is `(60/bpm)·4`; when not playing, `getCurrentBar`
returns the last-set start bar; immediately after `start(b)` it returns
exactly `b`; and while playing it is strictly increasing in time whenever
the tempo is positive. -/
theorem transport_clock_law (e : Engine) (now b t1 t2 : ℚ)
    (hbpm : 0 < e.bpm) (hnp : e.isPlaying = false) (h12 : t1 < t2) :
    secondsPerBar e.bpm = (60 / e.bpm) * 4 ∧
    getCurrentBar e now = e.startBar ∧
    getCurrentBar (start e now b) now = b ∧
    getCurrentBar (start e now b) t1 < getCurrentBar (start e now b) t2 := by
  have hspb : 0 < secondsPerBar e.bpm := by
    unfold secondsPerBar
    positivity
  refine ⟨rfl, by simp [getCurrentBar, hnp], ?_, ?_⟩
  · simp [getCurrentBar, start, hnp]
  · have h1 : getCurrentBar (start e now b) t1 = b + (t1 - now) / secondsPerBar e.bpm := by
      simp [getCurrentBar, start, hnp]
    have h2 : getCurrentBar (start e now b) t2 = b + (t2 - now) / secondsPerBar e.bpm := by
      simp [getCurrentBar, start, hnp]
    rw [h1, h2]
    have hd : (t1 - now) / secondsPerBar e.bpm < (t2 - now) / secondsPerBar e.bpm :=
      div_lt_div_of_pos_right (by linarith) hspb
    linarith

/-- C8 witness: starting the fresh engine (120 bpm) at bar 3 and reading
the bar at times 0, 1, 2. -/
theorem transport_clock_law_witness :
    secondsPerBar Engine.initial.bpm = (60 / Engine.initial.bpm) * 4 ∧
    getCurrentBar Engine.initial 0 = Engine.initial.startBar ∧
    getCurrentBar (start Engine.initial 0 3) 0 = 3 ∧
    getCurrentBar (start Engine.initial 0 3) 1 < getCurrentBar (start Engine.initial 0 3) 2 :=
  transport_clock_law Engine.initial 0 3 1 2 (by norm_num [Engine.initial]) rfl
    (by norm_num)

/-- C10: a pitched-track event whose note is `"REST"` or the empty string
resolves to frequency 0 (not the 440 Hz malformed-pitch fallback), and
exactly one sound is still created and scheduled, at 0 Hz — rests produce
a scheduled, inaudible sound rather than being skipped. -/
theorem rest_event_zero_freq (bpm time : ℚ) (track : Track) (event : NoteEvent)
    (hnd : track.type ≠ StemType.DRUMS)
    (hrest : event.note = .str "REST" ∨ event.note = .str "") :
    getFreq event.note = 0 ∧ ((0 : ℚ) ≠ 440) ∧
    (triggerEvent bpm track event time).length = 1 ∧
    ∀ s ∈ triggerEvent bpm track event time, s.freq = 0 := by
  have hf : getFreq event.note = 0 := by
    rcases hrest with h | h <;> simp [getFreq, h]
  refine ⟨hf, by norm_num, ?_, ?_⟩
  · cases htype : track.type
    · exact absurd htype hnd
    · simp [triggerEvent, htype]
    · simp [triggerEvent, htype]
    · simp [triggerEvent, htype]
  · intro s hs
    cases htype : track.type
    · exact absurd htype hnd
    all_goals
      · simp only [triggerEvent, htype, List.mem_singleton] at hs
        subst hs
        exact hf

/-- C10 witness: the `"REST"` event on the bass track schedules the one
`playBass` sound, at frequency 0. -/
theorem rest_event_zero_freq_witness :
    getFreq c10Event.note = 0 ∧ ((0 : ℚ) ≠ 440) ∧
    (triggerEvent 120 c10Track c10Event 0).length = 1 ∧
    (playBass 120 0 (getFreq c10Event.note) c10Event.duration
      (c10Track.volume * c10Event.velocity) .master).freq = 0 := by
  have h := rest_event_zero_freq 120 0 c10Track c10Event (by decide) (Or.inl rfl)
  exact ⟨h.1, h.2.1, h.2.2.1, h.2.2.2 _
    (by rw [triggerEvent_bass 120 c10Track c10Event 0 rfl]
        exact List.mem_singleton.mpr rfl)⟩

end NAW
